import Mathlib

/-!
Shallow embedding of the core of `src/main.rs` from mpv-http-ytproxy:
the Range-header rewriting logic of `mitm`, the tiered buffer pool
(`BufferPool`, `ChunkDataPool`), and the prefetch range tracker
(`ParallelDownloadManager::should_prefetch`).

`u64` values are modelled as `Nat` with explicit reduction modulo `2 ^ 64`
at the operations the Rust code performs: unchecked `+`, `-`, `*` wrap
(release-profile semantics), `checked_add` is modelled by an explicit
bound test, and `saturating_sub` / `saturating_add` saturate at `0` and
`2 ^ 64 - 1` (on `Nat` representatives, `saturating_sub` is plain `Nat`
subtraction).
-/

def U64 : Nat := 2 ^ 64

/-- Wrapping `u64` addition (Rust `+` on `u64` in a release build). -/
def add64 (a b : Nat) : Nat := (a + b) % U64

/-- Wrapping `u64` subtraction, for representatives `a b < 2 ^ 64`. -/
def sub64 (a b : Nat) : Nat := (a + U64 - b) % U64

/-- Wrapping `u64` multiplication. -/
def mul64 (a b : Nat) : Nat := (a * b) % U64

/-- Rust `u64::checked_add`: `none` signals overflow. -/
def checkedAdd (a b : Nat) : Option Nat := if a + b < U64 then some (a + b) else none

/-- Rust `u64::saturating_add`, saturating at `2 ^ 64 - 1`. -/
def satAdd (a b : Nat) : Nat := min (a + b) (U64 - 1)

/-- Decimal value of a digit list, most significant digit first. -/
def parseDigits (cs : List Char) : Nat := cs.foldl (fun a c => a * 10 + (c.toNat - 48)) 0

/-- Drop one optional leading `+` sign. -/
def stripSign (cs : List Char) : List Char :=
  match cs with
  | [] => []
  | c :: rest => if c = '+' then rest else c :: rest

/-- Rust `str::parse::<u64>`: an optional leading `+` sign followed by one
or more ASCII digits, rejecting values that do not fit in 64 bits. -/
def parseU64 (cs : List Char) : Option Nat :=
  if (stripSign cs).isEmpty then none
  else if (stripSign cs).all Char.isDigit then
    if parseDigits (stripSign cs) < U64 then some (parseDigits (stripSign cs)) else none
  else none

/-- Rust `str::strip_prefix` on character lists. -/
def stripTag : List Char → List Char → Option (List Char)
  | [], s => some s
  | _ :: _, [] => none
  | p :: ps, c :: cs => if c = p then stripTag ps cs else none

/-- Rust `str::split_once`: split at the first occurrence of `sep`. -/
def splitOnce (sep : Char) : List Char → Option (List Char × List Char)
  | [] => none
  | c :: cs =>
    if c = sep then some ([], cs)
    else
      match splitOnce sep cs with
      | some (a, b) => some (c :: a, b)
      | none => none

/-- The characters of the `"bytes="` unit tag. -/
def rangeTag : List Char := ['b', 'y', 't', 'e', 's', '=']

/-- Decimal formatting of a `u64` (Rust `format!("{}", n)`). -/
def natToChars (n : Nat) : List Char := Nat.toDigits 10 n

/-- The `should_modify` decision of `mitm` (src/main.rs:664-674): an
open-ended range is always rewritten; a closed range only when its
saturating size `end - start + 1` exceeds the chunk size; an unparseable
end value is skipped. -/
def shouldModify (start : Nat) (end_str : List Char) (http_chunk_size : Nat) : Bool :=
  if end_str.isEmpty then true
  else
    match parseU64 end_str with
    | some e => decide (http_chunk_size < satAdd (e - start) 1)
    | none => false

/-- The rewrite step of `mitm` once `start` has parsed
(src/main.rs:676-736): compute `new_end` with `checked_add`, abort on
overflow, otherwise format `bytes=<start>-<new_end - 1>` (with
`saturating_sub`). -/
def rewriteWithChunk (start : Nat) (end_str : List Char) (http_chunk_size : Nat) :
    Option (List Char) :=
  if shouldModify start end_str http_chunk_size then
    match checkedAdd start http_chunk_size with
    | some new_end => some (rangeTag ++ natToChars start ++ '-' :: natToChars (new_end - 1))
    | none => none
  else none

/-- The Range-header rewriting logic of `mitm` (src/main.rs:652-756), as a
function from the header text to `some` new header text (the code replaces
the header in place) or `none` (the header is left untouched).
`HeaderValue::from_str` (external hyper code) always succeeds on the
`bytes=<digits>-<digits>` strings formatted here, so it is modelled as
succeeding. -/
def rewriteRangeChars (range_string : List Char) (http_chunk_size : Nat) : Option (List Char) :=
  match stripTag rangeTag range_string with
  | none => none
  | some range_part =>
    match splitOnce '-' range_part with
    | none => none
    | some (start_str, end_str) =>
      match parseU64 start_str with
      | none => none
      | some start => rewriteWithChunk start end_str http_chunk_size

/-- A Range header value as seen by `mitm`: either bytes that decode as
UTF-8 text (`val.to_str()` succeeds) or invalid bytes. -/
inductive RangeHeaderValue where
  | utf8 (chars : List Char)
  | nonUtf8
deriving DecidableEq

/-- The effect of `mitm` on the request's Range header: no header, a
non-UTF-8 header, and any header the rewrite leaves alone pass through
unchanged. -/
def mitmRangeHeader : Option RangeHeaderValue → Nat → Option RangeHeaderValue
  | none, _ => none
  | some RangeHeaderValue.nonUtf8, _ => some RangeHeaderValue.nonUtf8
  | some (RangeHeaderValue.utf8 cs), chunk =>
    match rewriteRangeChars cs chunk with
    | some newr => some (RangeHeaderValue.utf8 newr)
    | none => some (RangeHeaderValue.utf8 cs)

/-- The syntactic conditions under which `mitm` reaches its rewrite
decision: a `bytes=` tag, a `-` separator, and a start that parses as
`u64`. -/
def parsesRangeForm (cs : List Char) : Bool :=
  match stripTag rangeTag cs with
  | none => false
  | some part =>
    match splitOnce '-' part with
    | none => false
    | some (start_str, _) => (parseU64 start_str).isSome


/-- A `Vec<u8>` buffer, abstracted to its length and capacity (its contents
are always zero-filled by the pool). -/
structure Buf where
  length : Nat
  capacity : Nat
deriving DecidableEq

/-- One tier of the memory pool (`BufferPool`, src/main.rs:213-288).  The
`VecDeque` free list is a `List` with the front at the head; the
`Arc<Mutex<...>>` cells are plain fields, one operation being one critical
section. -/
structure BufferPool where
  available_buffers : List Buf
  buffer_size : Nat
  max_buffers : Nat
  allocated_count : Nat
  pool_hits : Nat
  pool_misses : Nat
deriving DecidableEq

/-- `BufferPool::new` (src/main.rs:224-240): pre-allocates
`initial_count` zero-filled buffers of `buffer_size` bytes. -/
def BufferPool.new (buffer_size initial_count max_buffers : Nat) : BufferPool :=
  { available_buffers := List.replicate initial_count ⟨buffer_size, buffer_size⟩
    buffer_size := buffer_size
    max_buffers := max_buffers
    allocated_count := initial_count
    pool_hits := 0
    pool_misses := 0 }

/-- `BufferPool::get_buffer` (src/main.rs:242-266).  A free-list hit pops
the front buffer, clears it and resizes it to `buffer_size` (`Vec::resize`
keeps the capacity when it is already at least `buffer_size` and otherwise
grows it to at least `buffer_size`; `max` is the exact value in the first
case and a faithful lower bound in the unreachable second).  A miss
allocates a fresh `vec![0u8; buffer_size]`.  When the tier is exhausted the
code drops its locks, sleeps 1 ms and retries forever; no completed step
exists, modelled as `none`. -/
def BufferPool.get_buffer (p : BufferPool) : Option (Buf × BufferPool) :=
  match p.available_buffers with
  | b :: rest =>
    some (⟨p.buffer_size, max b.capacity p.buffer_size⟩,
      { p with available_buffers := rest, pool_hits := p.pool_hits + 1 })
  | [] =>
    if p.allocated_count < p.max_buffers then
      some (⟨p.buffer_size, p.buffer_size⟩,
        { p with allocated_count := p.allocated_count + 1, pool_misses := p.pool_misses + 1 })
    else none

/-- `BufferPool::return_buffer` (src/main.rs:268-276): keep the buffer only
if its capacity suffices and the free list holds fewer than
`max_buffers / 2` buffers; otherwise it is dropped. -/
def BufferPool.return_buffer (p : BufferPool) (buffer : Buf) : BufferPool :=
  if p.buffer_size ≤ buffer.capacity then
    if p.available_buffers.length < p.max_buffers / 2 then
      { p with available_buffers := p.available_buffers ++ [buffer] }
    else p
  else p

/-- One acquire or release step against a single tier. -/
inductive PoolOp where
  | acquire
  | release (b : Buf)

/-- The state change of one `PoolOp`; an acquire against an exhausted tier
completes no step and leaves the state unchanged. -/
def BufferPool.applyOp (p : BufferPool) : PoolOp → BufferPool
  | PoolOp.acquire =>
    match p.get_buffer with
    | some r => r.2
    | none => p
  | PoolOp.release b => p.return_buffer b

/-- A finite sequence of acquire/release steps. -/
def BufferPool.runOps (p : BufferPool) (ops : List PoolOp) : BufferPool :=
  ops.foldl BufferPool.applyOp p

/-- The spec's BufferTier invariant: `allocated_count <= max_buffers` and
every free-list buffer has capacity at least the tier's fixed size. -/
def PoolInv (p : BufferPool) : Prop :=
  p.allocated_count ≤ p.max_buffers ∧ ∀ b ∈ p.available_buffers, p.buffer_size ≤ b.capacity

/-- `ChunkDataPool` (src/main.rs:290-356): three fixed tiers plus the
enable flag. -/
structure ChunkDataPool where
  small_chunks : BufferPool
  medium_chunks : BufferPool
  large_chunks : BufferPool
  enabled : Bool
deriving DecidableEq

/-- `ChunkDataPool::new` (src/main.rs:299-306). -/
def ChunkDataPool.new (enabled : Bool) : ChunkDataPool :=
  { small_chunks := BufferPool.new (5 * 1024 * 1024) 4 16
    medium_chunks := BufferPool.new (20 * 1024 * 1024) 2 8
    large_chunks := BufferPool.new (50 * 1024 * 1024) 1 4
    enabled := enabled }

/-- `ChunkDataPool::get_buffer_for_size` (src/main.rs:308-318): with the
pool disabled, allocate exactly the requested size; otherwise select the
tier by the fixed thresholds. -/
def ChunkDataPool.get_buffer_for_size (p : ChunkDataPool) (size : Nat) :
    Option (Buf × ChunkDataPool) :=
  if p.enabled = false then some (⟨size, size⟩, p)
  else if size ≤ 5242880 then
    (p.small_chunks.get_buffer).map (fun r => (r.1, { p with small_chunks := r.2 }))
  else if size ≤ 20971520 then
    (p.medium_chunks.get_buffer).map (fun r => (r.1, { p with medium_chunks := r.2 }))
  else
    (p.large_chunks.get_buffer).map (fun r => (r.1, { p with large_chunks := r.2 }))

/-- `ChunkDataPool::return_buffer` (src/main.rs:320-331): the tier is
re-derived from the buffer's capacity. -/
def ChunkDataPool.return_buffer (p : ChunkDataPool) (buffer : Buf) : ChunkDataPool :=
  if p.enabled = false then p
  else if buffer.capacity ≤ 5242880 then
    { p with small_chunks := p.small_chunks.return_buffer buffer }
  else if buffer.capacity ≤ 20971520 then
    { p with medium_chunks := p.medium_chunks.return_buffer buffer }
  else
    { p with large_chunks := p.large_chunks.return_buffer buffer }

/-- Repeatedly acquire a medium-tier (6 MiB requested) buffer without ever
returning it, dropping the buffer each time. -/
def drainMedium : Nat → ChunkDataPool → ChunkDataPool
  | 0, p => p
  | n + 1, p =>
    match p.get_buffer_for_size 6291456 with
    | some r => drainMedium n r.2
    | none => p

/-- Assoc-list lookup, modelling `HashMap::get` for the `active_downloads`
table keyed by URL. -/
def lookupA (m : List (String × List (Nat × Nat))) (k : String) : Option (List (Nat × Nat)) :=
  match m with
  | [] => none
  | (k', v) :: rest => if k' = k then some v else lookupA rest k

/-- Assoc-list update, modelling `HashMap::entry(..).or_default()` followed
by in-place mutation: the binding for `k` is replaced (or created) with the
final list. -/
def insertA (m : List (String × List (Nat × Nat))) (k : String) (v : List (Nat × Nat)) :
    List (String × List (Nat × Nat)) :=
  match m with
  | [] => [(k, v)]
  | (k', v') :: rest => if k' = k then (k, v) :: rest else (k', v') :: insertA rest k v

/-- The candidate-start overlap test of `should_prefetch`
(src/main.rs:427-429): `prefetch_start >= s && prefetch_start <= e`. -/
def ovl (q : Nat × Nat) (x : Nat) : Bool := decide (q.1 ≤ x) && decide (x ≤ q.2)

/-- The `for i in 1..=chunks_to_prefetch` loop of `should_prefetch`
(src/main.rs:422-435), with the remaining iteration count as fuel and `i`
the Rust loop index.  Returns the updated tracked list and the emitted
prefetch ranges. -/
def prefetchLoop (current_end chunk_size : Nat) :
    Nat → Nat → List (Nat × Nat) → List (Nat × Nat) →
    List (Nat × Nat) × List (Nat × Nat)
  | 0, _, downloads, acc => (downloads, acc)
  | k + 1, i, downloads, acc =>
    if downloads.any (fun q => ovl q (add64 current_end (mul64 (i - 1) chunk_size))) then
      prefetchLoop current_end chunk_size k (i + 1) downloads acc
    else
      prefetchLoop current_end chunk_size k (i + 1)
        (downloads ++ [(add64 current_end (mul64 (i - 1) chunk_size),
          sub64 (add64 (add64 current_end (mul64 (i - 1) chunk_size)) chunk_size) 1)])
        (acc ++ [(add64 current_end (mul64 (i - 1) chunk_size),
          sub64 (add64 (add64 current_end (mul64 (i - 1) chunk_size)) chunk_size) 1)])

/-- `ParallelDownloadManager` (src/main.rs:362-387).  The
`Arc<Mutex<HashMap>>` download tracker is an assoc list; `stats_timer`
(wall-clock diagnostics throttling) has no bearing on any tracked state and
is omitted. -/
structure ParallelDownloadManager where
  active_downloads : List (String × List (Nat × Nat))
  max_concurrent : Nat
  prefetch_size : Nat
  enabled : Bool
  chunk_pool : ChunkDataPool
deriving DecidableEq

/-- `ParallelDownloadManager::should_prefetch` (src/main.rs:406-444).
All `u64` arithmetic (`start + chunk_size`, `(i - 1) * chunk_size`,
`max_concurrent as u64 - 1`, `prefetch_size * 2`) is unchecked in the Rust
source and wraps modulo `2 ^ 64`; `start.saturating_sub(s)` is `Nat`
subtraction.  The division `prefetch_size / chunk_size` is only ever
reached with `chunk_size > 0` (validated fatally at startup). -/
def should_prefetch (m : ParallelDownloadManager) (url : String) (start chunk_size : Nat) :
    List (Nat × Nat) × ParallelDownloadManager :=
  if m.enabled = false then ([], m)
  else
    let downloads0 := (lookupA m.active_downloads url).getD []
    let current_end := add64 start chunk_size
    let chunks_to_prefetch := min (m.prefetch_size / chunk_size) (sub64 m.max_concurrent 1)
    let r := prefetchLoop current_end chunk_size chunks_to_prefetch 1 downloads0 []
    let downloads1 := r.1 ++ [(start, sub64 (add64 start chunk_size) 1)]
    let downloads2 := downloads1.filter (fun q => decide (start - q.1 < mul64 m.prefetch_size 2))
    (r.2, { m with active_downloads := insertA m.active_downloads url downloads2 })

/-- A freshly constructed manager with the repository's default
configuration (`max_concurrent_chunks = 2`, `prefetch_ahead = 20 MiB`) and
prefetching enabled. -/
def pdmDefault : ParallelDownloadManager :=
  { active_downloads := []
    max_concurrent := 2
    prefetch_size := 20971520
    enabled := true
    chunk_pool := ChunkDataPool.new true }

/-- The manager state after one `should_prefetch` call at
`start = 2 ^ 64 - 11`, `chunk_size = 10` (a start the rewrite path accepts:
`start + chunk_size` does not overflow). -/
def pdmWrapped : ParallelDownloadManager :=
  (should_prefetch pdmDefault "u" (U64 - 11) 10).2

/-- A manager configured with `prefetch_ahead = 0` and prefetching
enabled. -/
def pdmZeroBudget : ParallelDownloadManager :=
  { active_downloads := []
    max_concurrent := 2
    prefetch_size := 0
    enabled := true
    chunk_pool := ChunkDataPool.new true }

/-- A manager with prefetching disabled by configuration. -/
def pdmDisabled : ParallelDownloadManager :=
  { active_downloads := []
    max_concurrent := 2
    prefetch_size := 20971520
    enabled := false
    chunk_pool := ChunkDataPool.new true }

/-- Distinctness of prefetch starts, restricted to non-wrapped earlier
ranges: a later range's start differs from an earlier range's start
whenever the earlier range satisfies `start <= end`. -/
def RelC (a b : Nat × Nat) : Prop := a.1 ≤ a.2 → b.1 ≠ a.1


/-- Inversion of a successful `u64` parse: the digits after the optional
sign are non-empty, all decimal, and denote a value below `2 ^ 64`. -/
theorem parseU64_inv {cs : List Char} {n : Nat} (h : parseU64 cs = some n) :
    (stripSign cs).isEmpty = false ∧ (stripSign cs).all Char.isDigit = true ∧
      parseDigits (stripSign cs) = n ∧ n < U64 := by
  unfold parseU64 at h
  split_ifs at h with h1 h2 h3
  have hn : parseDigits (stripSign cs) = n := Option.some.inj h
  exact ⟨by simpa using h1, by simpa using h2, hn, hn ▸ h3⟩

theorem parseU64_lt {cs : List Char} {n : Nat} (h : parseU64 cs = some n) : n < U64 :=
  (parseU64_inv h).2.2.2

theorem parseU64_ne_nil {cs : List Char} {n : Nat} (h : parseU64 cs = some n) :
    cs.isEmpty = false := by
  cases cs with
  | nil => simp [parseU64, stripSign] at h
  | cons c rest => rfl

/-- Every character of a successfully parsed numeral is a digit or the
leading `+` sign. -/
theorem parseU64_chars {cs : List Char} {n : Nat} (h : parseU64 cs = some n) :
    ∀ c ∈ cs, c.isDigit = true ∨ c = '+' := by
  intro c hc
  have hall : (stripSign cs).all Char.isDigit = true := (parseU64_inv h).2.1
  cases cs with
  | nil => simp at hc
  | cons c0 rest =>
    by_cases h0 : c0 = '+'
    · rcases List.mem_cons.mp hc with rfl | hmem
      · exact Or.inr h0
      · refine Or.inl ?_
        have : stripSign (c0 :: rest) = rest := by simp [stripSign, h0]
        exact List.all_eq_true.mp (this ▸ hall) c hmem
    · have : stripSign (c0 :: rest) = c0 :: rest := by simp [stripSign, h0]
      exact Or.inl (List.all_eq_true.mp (this ▸ hall) c (this ▸ hc))

theorem parseU64_ne_dash {cs : List Char} {n : Nat} (h : parseU64 cs = some n) :
    ∀ c ∈ cs, c ≠ '-' := by
  intro c hc heq
  rcases parseU64_chars h c hc with hd | hp
  · rw [heq] at hd
    simp [Char.isDigit] at hd
  · rw [heq] at hp
    simp at hp

theorem stripTag_rangeTag (s : List Char) : stripTag rangeTag (rangeTag ++ s) = some s := by
  simp [rangeTag, stripTag]

theorem splitOnce_no_sep (sep : Char) (l r : List Char) (h : ∀ c ∈ l, c ≠ sep) :
    splitOnce sep (l ++ sep :: r) = some (l, r) := by
  induction l with
  | nil => simp [splitOnce]
  | cons c cs ih =>
    have hc : c ≠ sep := h c (by simp)
    have ih' := ih (fun x hx => h x (List.mem_cons_of_mem c hx))
    simp only [List.cons_append, splitOnce, if_neg hc, List.append_eq, ih']

/-- Evaluation of the rewrite after the `bytes=` tag is stripped. -/
theorem rewrite_strip_eval (l : List Char) (chunk : Nat) :
    rewriteRangeChars (rangeTag ++ l) chunk =
      match splitOnce '-' l with
      | none => none
      | some (start_str, end_str) =>
        match parseU64 start_str with
        | none => none
        | some start => rewriteWithChunk start end_str chunk := by
  unfold rewriteRangeChars
  rw [stripTag_rangeTag]

/-- Evaluation of the rewrite on any header of the parsed form
`bytes=<start_str>-<end_str>`. -/
theorem rewrite_form_eval {start_str : List Char} {start : Nat} (end_str : List Char)
    (chunk : Nat) (h : parseU64 start_str = some start) :
    rewriteRangeChars (rangeTag ++ start_str ++ '-' :: end_str) chunk =
      rewriteWithChunk start end_str chunk := by
  have hsplit : splitOnce '-' (start_str ++ '-' :: end_str) = some (start_str, end_str) :=
    splitOnce_no_sep '-' start_str end_str (parseU64_ne_dash h)
  rw [show rangeTag ++ start_str ++ '-' :: end_str = rangeTag ++ (start_str ++ '-' :: end_str) from rfl,
    rewrite_strip_eval, hsplit]
  show (match parseU64 start_str with
    | none => none
    | some start => rewriteWithChunk start end_str chunk) = rewriteWithChunk start end_str chunk
  rw [h]

/-- C1 (amended): for every open-ended header `bytes=<start>-` whose start
parses as a `u64` and every `chunk_size > 0` such that
`start + chunk_size` does not overflow `u64`, the rewrite replaces the
header with exactly `bytes=<start>-<start+chunk_size-1>`; when
`start + chunk_size` overflows, the header is left unchanged instead. -/
theorem c1_open_range_rewrite (start_str : List Char) (start chunk : Nat)
    (hparse : parseU64 start_str = some start) (_hchunk : 0 < chunk) :
    (start + chunk < U64 →
      rewriteRangeChars (rangeTag ++ start_str ++ '-' :: ([] : List Char)) chunk =
        some (rangeTag ++ natToChars start ++ '-' :: natToChars (start + chunk - 1))) ∧
    (U64 ≤ start + chunk →
      rewriteRangeChars (rangeTag ++ start_str ++ '-' :: ([] : List Char)) chunk = none) := by
  have heval := rewrite_form_eval ([] : List Char) chunk hparse
  have hmod : shouldModify start ([] : List Char) chunk = true := by
    simp [shouldModify]
  constructor
  · intro hov
    rw [heval]
    simp [rewriteWithChunk, hmod, checkedAdd, hov]
  · intro hov
    rw [heval]
    simp [rewriteWithChunk, hmod, checkedAdd, Nat.not_lt.mpr hov]

/-- C1 witness: `bytes=0-` with `chunk_size = 1` becomes `bytes=0-0`. -/
theorem c1_open_range_rewrite_witness :
    rewriteRangeChars (rangeTag ++ "0".data ++ '-' :: ([] : List Char)) 1 =
      some (rangeTag ++ natToChars 0 ++ '-' :: natToChars 0) :=
  (c1_open_range_rewrite "0".data 0 1 (by decide) (by decide)).1 (by decide)

/-- C1 counterexample: `bytes=18446744073709551615-` (start `2 ^ 64 - 1`,
which parses as a `u64`) with `chunk_size = 1 > 0` is left unchanged by
`mitm` — the claim requires it to be replaced with
`bytes=18446744073709551615-18446744073709551615`. -/
theorem c1_counterexample :
    parseU64 "18446744073709551615".data = some (U64 - 1) ∧ 0 < 1 ∧
    mitmRangeHeader (some (RangeHeaderValue.utf8 "bytes=18446744073709551615-".data)) 1 =
      some (RangeHeaderValue.utf8 "bytes=18446744073709551615-".data) := by decide

/-- When the closed-form decision says to rewrite, `start + chunk` cannot
overflow: the saturating requested size exceeding the chunk size already
bounds `start + chunk` by `end < 2 ^ 64`. -/
theorem closed_no_overflow {start e chunk : Nat} (he : e < U64) (hchunk : 0 < chunk)
    (hlt : chunk < satAdd (e - start) 1) : start + chunk < U64 := by
  have h1 : chunk < e - start + 1 := lt_of_lt_of_le hlt (min_le_left _ _)
  have h2 : chunk ≤ e - start := Nat.lt_succ_iff.mp h1
  have h3 : 0 < e - start := lt_of_lt_of_le hchunk h2
  have h4 : start ≤ e := le_of_lt (Nat.lt_of_sub_pos h3)
  calc start + chunk ≤ start + (e - start) := Nat.add_le_add_left h2 start
    _ = e := Nat.add_sub_cancel' h4
    _ < U64 := he

/-- C2: for every closed-form header `bytes=<start>-<end>` with both ends
parsing as `u64` and `chunk_size > 0`, the header is rewritten exactly when
the saturating size `end - start + 1` strictly exceeds `chunk_size`, the
rewritten end being `start + chunk_size - 1`; otherwise it is left
byte-for-byte unchanged. -/
theorem c2_closed_range_rewrite (start_str end_str : List Char) (start e chunk : Nat)
    (hs : parseU64 start_str = some start) (he : parseU64 end_str = some e)
    (hchunk : 0 < chunk) :
    (chunk < satAdd (e - start) 1 →
      rewriteRangeChars (rangeTag ++ start_str ++ '-' :: end_str) chunk =
        some (rangeTag ++ natToChars start ++ '-' :: natToChars (start + chunk - 1))) ∧
    (satAdd (e - start) 1 ≤ chunk →
      rewriteRangeChars (rangeTag ++ start_str ++ '-' :: end_str) chunk = none) := by
  have heval := rewrite_form_eval end_str chunk hs
  have hne : end_str.isEmpty = false := parseU64_ne_nil he
  constructor
  · intro hlt
    have hov : start + chunk < U64 := closed_no_overflow (parseU64_lt he) hchunk hlt
    have hmod : shouldModify start end_str chunk = true := by
      simp [shouldModify, hne, he, hlt]
    rw [heval]
    simp [rewriteWithChunk, hmod, checkedAdd, hov]
  · intro hle
    have hmod : shouldModify start end_str chunk = false := by
      simp [shouldModify, hne, he, Nat.not_lt.mpr hle]
    rw [heval]
    simp [rewriteWithChunk, hmod]

/-- C2 witness: `bytes=0-99` with `chunk_size = 10` becomes `bytes=0-9`,
and `bytes=0-9` with `chunk_size = 10` is unchanged. -/
theorem c2_closed_range_rewrite_witness :
    (rewriteRangeChars (rangeTag ++ "0".data ++ '-' :: "99".data) 10 =
      some (rangeTag ++ natToChars 0 ++ '-' :: natToChars 9)) ∧
    (rewriteRangeChars (rangeTag ++ "0".data ++ '-' :: "9".data) 10 = none) :=
  ⟨(c2_closed_range_rewrite "0".data "99".data 0 99 10 (by decide) (by decide) (by decide)).1
      (by decide),
    (c2_closed_range_rewrite "0".data "9".data 0 9 10 (by decide) (by decide) (by decide)).2
      (by decide)⟩

/-- C3: whenever the rewrite decision fires but `start + chunk_size`
overflows `u64`, the header is left unchanged; and every header the
operation does emit carries the true (unwrapped) end
`start + chunk_size - 1`, with `start + chunk_size < 2 ^ 64`. -/
theorem c3_overflow_abort (start_str end_str : List Char) (start chunk : Nat)
    (hs : parseU64 start_str = some start) :
    (U64 ≤ start + chunk → shouldModify start end_str chunk = true →
      rewriteRangeChars (rangeTag ++ start_str ++ '-' :: end_str) chunk = none) ∧
    (∀ out, rewriteRangeChars (rangeTag ++ start_str ++ '-' :: end_str) chunk = some out →
      start + chunk < U64 ∧
      out = rangeTag ++ natToChars start ++ '-' :: natToChars (start + chunk - 1)) := by
  have heval := rewrite_form_eval end_str chunk hs
  constructor
  · intro hov hmod
    rw [heval]
    simp [rewriteWithChunk, hmod, checkedAdd, Nat.not_lt.mpr hov]
  · intro out hout
    rw [heval] at hout
    unfold rewriteWithChunk at hout
    by_cases hmod : shouldModify start end_str chunk = true
    · rw [if_pos hmod] at hout
      by_cases hov : start + chunk < U64
      · refine ⟨hov, ?_⟩
        rw [show checkedAdd start chunk = some (start + chunk) from by
          simp [checkedAdd, hov]] at hout
        exact (Option.some.inj hout).symm
      · rw [show checkedAdd start chunk = none from by
          simp [checkedAdd, hov]] at hout
        exact absurd hout (by simp)
    · rw [if_neg hmod] at hout
      exact absurd hout (by simp)

/-- C3 witness: `bytes=18446744073709551615-` with `chunk_size = 1`
triggers the rewrite decision, overflows, and is left unchanged. -/
theorem c3_overflow_abort_witness :
    rewriteRangeChars (rangeTag ++ "18446744073709551615".data ++ '-' :: ([] : List Char)) 1 =
      none :=
  (c3_overflow_abort "18446744073709551615".data [] (U64 - 1) 1 (by decide)).1
    (by decide) (by decide)

/-- A header whose syntax the rewrite does not accept is never modified. -/
theorem not_form_unchanged {cs : List Char} (chunk : Nat)
    (hform : parsesRangeForm cs = false) : rewriteRangeChars cs chunk = none := by
  unfold parsesRangeForm at hform
  unfold rewriteRangeChars
  cases h1 : stripTag rangeTag cs with
  | none => rfl
  | some part =>
    rw [h1] at hform
    show (match splitOnce '-' part with
      | none => none
      | some (start_str, end_str) =>
        match parseU64 start_str with
        | none => none
        | some start => rewriteWithChunk start end_str chunk) = none
    have hform1 : (match splitOnce '-' part with
      | none => false
      | some (start_str, _) => (parseU64 start_str).isSome) = false := hform
    cases h2 : splitOnce '-' part with
    | none => rfl
    | some pr =>
      obtain ⟨s, e⟩ := pr
      rw [h2] at hform1
      have hf2 : (parseU64 s).isSome = false := hform1
      show (match parseU64 s with
        | none => none
        | some start => rewriteWithChunk start e chunk) = none
      cases h3 : parseU64 s with
      | none => rfl
      | some v =>
        rw [h3] at hf2
        exact absurd hf2 (by simp)

/-- C4: every Range header string that does not match the
`bytes=<start>-<end>?` form (wrong unit, missing `-`, unparseable start)
and every non-UTF-8 header value pass through `mitm` untouched, and
processing continues (a header is produced) for every possible header
string input. -/
theorem c4_malformed_untouched (cs : List Char) (chunk : Nat) (_hchunk : 0 < chunk)
    (hform : parsesRangeForm cs = false) :
    mitmRangeHeader (some (RangeHeaderValue.utf8 cs)) chunk =
      some (RangeHeaderValue.utf8 cs) ∧
    mitmRangeHeader (some RangeHeaderValue.nonUtf8) chunk = some RangeHeaderValue.nonUtf8 ∧
    (∀ cs' chunk', (mitmRangeHeader (some (RangeHeaderValue.utf8 cs')) chunk').isSome = true) ∧
    mitmRangeHeader none chunk = none := by
  refine ⟨?_, rfl, ?_, rfl⟩
  · simp [mitmRangeHeader, not_form_unchanged chunk hform]
  · intro cs' chunk'
    unfold mitmRangeHeader
    cases h : rewriteRangeChars cs' chunk' <;> simp [h]

/-- C4 witness: the non-bytes unit `items=0-` passes through unchanged. -/
theorem c4_malformed_untouched_witness :
    mitmRangeHeader (some (RangeHeaderValue.utf8 "items=0-".data)) 1 =
      some (RangeHeaderValue.utf8 "items=0-".data) :=
  (c4_malformed_untouched "items=0-".data 1 (by decide) (by decide)).1

/-- Inversion of a completed `get_buffer` step: the returned buffer has
length exactly the tier's fixed size and capacity at least that size, the
tier parameters are unchanged, the free list only shrinks, and the
allocation counter is unchanged (hit) or incremented while strictly below
`max_buffers` (miss). -/
theorem get_buffer_inv {p p' : BufferPool} {b : Buf}
    (h : p.get_buffer = some (b, p')) :
    b.length = p.buffer_size ∧ p.buffer_size ≤ b.capacity ∧
    p'.buffer_size = p.buffer_size ∧ p'.max_buffers = p.max_buffers ∧
    (∀ c ∈ p'.available_buffers, c ∈ p.available_buffers) ∧
    (p'.allocated_count = p.allocated_count ∨
      (p.allocated_count < p.max_buffers ∧
        p'.allocated_count = p.allocated_count + 1)) := by
  unfold BufferPool.get_buffer at h
  cases hav : p.available_buffers with
  | cons c rest =>
    rw [hav] at h
    simp only [Option.some.injEq, Prod.mk.injEq] at h
    obtain ⟨hb, hp⟩ := h
    subst hb
    subst hp
    refine ⟨rfl, le_max_right _ _, rfl, rfl, ?_, Or.inl rfl⟩
    intro c' hc'
    exact List.mem_cons_of_mem c hc'
  | nil =>
    rw [hav] at h
    by_cases hlt : p.allocated_count < p.max_buffers
    · rw [if_pos hlt] at h
      simp only [Option.some.injEq, Prod.mk.injEq] at h
      obtain ⟨hb, hp⟩ := h
      subst hb
      subst hp
      refine ⟨rfl, le_refl _, rfl, rfl, ?_, Or.inr ⟨hlt, rfl⟩⟩
      intro c' hc'
      exact absurd hc' (by simp)
    · rw [if_neg hlt] at h
      exact absurd h (by simp)

/-- `return_buffer` never touches the allocation counter, in particular
not when it drops the buffer. -/
theorem return_buffer_allocated (p : BufferPool) (b : Buf) :
    (p.return_buffer b).allocated_count = p.allocated_count := by
  unfold BufferPool.return_buffer
  split_ifs <;> rfl

/-- A single acquire or release step never decreases `allocated_count`. -/
theorem applyOp_allocated_le (p : BufferPool) (op : PoolOp) :
    p.allocated_count ≤ (p.applyOp op).allocated_count := by
  cases op with
  | acquire =>
    unfold BufferPool.applyOp
    cases hg : p.get_buffer with
    | none => exact le_refl _
    | some r =>
      obtain ⟨b, p'⟩ := r
      show p.allocated_count ≤ p'.allocated_count
      rcases (get_buffer_inv hg).2.2.2.2.2 with h1 | h1
      · rw [h1]
      · rw [h1.2]
        exact Nat.le_succ _
  | release b =>
    show p.allocated_count ≤ (p.return_buffer b).allocated_count
    rw [return_buffer_allocated]

/-- A single acquire or release step preserves the tier invariant. -/
theorem applyOp_inv {p : BufferPool} (h : PoolInv p) (op : PoolOp) :
    PoolInv (p.applyOp op) := by
  cases op with
  | acquire =>
    unfold BufferPool.applyOp
    cases hg : p.get_buffer with
    | none => exact h
    | some r =>
      obtain ⟨b, p'⟩ := r
      show PoolInv p'
      obtain ⟨_, _, hbs, hmax, hsub, halloc⟩ := get_buffer_inv hg
      constructor
      · rcases halloc with h1 | h1
        · rw [h1, hmax]
          exact h.1
        · rw [h1.2, hmax]
          exact h1.1
      · intro c hc
        rw [hbs]
        exact h.2 c (hsub c hc)
  | release b =>
    show PoolInv (p.return_buffer b)
    unfold BufferPool.return_buffer
    split_ifs with h1 h2
    · refine ⟨h.1, ?_⟩
      intro c hc
      rcases List.mem_append.mp hc with hc | hc
      · exact h.2 c hc
      · rw [List.mem_singleton.mp hc]
        exact h1
    · exact h
    · exact h

/-- The tier invariant holds after every finite sequence of steps from an
invariant-satisfying state. -/
theorem runOps_inv {p : BufferPool} (h : PoolInv p) (ops : List PoolOp) :
    PoolInv (p.runOps ops) := by
  induction ops generalizing p with
  | nil => exact h
  | cons op rest ih => exact ih (applyOp_inv h op)

/-- C6: for every tier of the pool as constructed and every finite
sequence of acquire/release operations, `allocated_count` never exceeds
`max_buffers` and every free-list buffer has capacity at least the tier's
fixed size. -/
theorem c6_pool_invariant (ops : List PoolOp) :
    PoolInv ((ChunkDataPool.new true).small_chunks.runOps ops) ∧
    PoolInv ((ChunkDataPool.new true).medium_chunks.runOps ops) ∧
    PoolInv ((ChunkDataPool.new true).large_chunks.runOps ops) :=
  ⟨runOps_inv (by constructor <;> decide) ops,
    runOps_inv (by constructor <;> decide) ops,
    runOps_inv (by constructor <;> decide) ops⟩

/-- C6 witness: the invariant at a concrete operation sequence on the
small tier. -/
theorem c6_pool_invariant_witness :
    PoolInv ((ChunkDataPool.new true).small_chunks.runOps
      [PoolOp.acquire, PoolOp.release ⟨5242880, 5242880⟩]) :=
  (c6_pool_invariant [PoolOp.acquire, PoolOp.release ⟨5242880, 5242880⟩]).1

/-- C10: `release` never decrements `allocated_count` (even when the
buffer is dropped rather than pooled), and `allocated_count` is monotone
non-decreasing across every sequence of acquire/release steps. -/
theorem c10_allocated_monotone :
    (∀ (p : BufferPool) (b : Buf),
      (p.return_buffer b).allocated_count = p.allocated_count) ∧
    (∀ (p : BufferPool) (ops : List PoolOp),
      p.allocated_count ≤ (p.runOps ops).allocated_count) := by
  refine ⟨return_buffer_allocated, ?_⟩
  intro p ops
  induction ops generalizing p with
  | nil => exact le_refl _
  | cons op rest ih =>
    exact le_trans (applyOp_allocated_le p op) (ih (p.applyOp op))

/-- A free-list hit, as an equation. -/
theorem get_buffer_cons {p : BufferPool} {c : Buf} {rest : List Buf}
    (hav : p.available_buffers = c :: rest) :
    p.get_buffer = some (⟨p.buffer_size, max c.capacity p.buffer_size⟩,
      { p with available_buffers := rest, pool_hits := p.pool_hits + 1 }) := by
  unfold BufferPool.get_buffer
  rw [hav]

/-- A fresh allocation (miss), as an equation. -/
theorem get_buffer_miss {p : BufferPool} (hav : p.available_buffers = [])
    (hlt : p.allocated_count < p.max_buffers) :
    p.get_buffer = some (⟨p.buffer_size, p.buffer_size⟩,
      { p with allocated_count := p.allocated_count + 1, pool_misses := p.pool_misses + 1 }) := by
  unfold BufferPool.get_buffer
  rw [hav, if_pos hlt]

/-- A 6 MiB request on an enabled pool is routed to the medium tier. -/
theorem route_medium (p : ChunkDataPool) (hne : ¬ p.enabled = false) {r : Buf × BufferPool}
    (h : p.medium_chunks.get_buffer = some r) :
    p.get_buffer_for_size 6291456 = some (r.1, { p with medium_chunks := r.2 }) := by
  unfold ChunkDataPool.get_buffer_for_size
  rw [if_neg hne, if_neg (by decide), if_pos (by decide), h]
  rfl

/-- C5 (amended): with the pool enabled, `acquire` selects the tier by the
fixed thresholds and every buffer it returns has the selected tier's fixed
size (capacity at least that size); for `acquire(6 * 1024 * 1024)` on a
medium tier with 20 MiB buffers, a non-empty free list yields a hit
returning a buffer of capacity at least 20 MiB, and an empty free list
yields a miss with `allocated_count` incremented — provided the tier is
not exhausted (`allocated_count < max_buffers`); an exhausted tier
completes no step (the code blocks and retries) instead of counting a
miss. -/
theorem c5_tier_selection (p : ChunkDataPool) (size : Nat) (hen : p.enabled = true) :
    (∀ b p', p.get_buffer_for_size size = some (b, p') →
      b.length = (if size ≤ 5242880 then p.small_chunks.buffer_size
        else if size ≤ 20971520 then p.medium_chunks.buffer_size
        else p.large_chunks.buffer_size) ∧ b.length ≤ b.capacity) ∧
    (p.medium_chunks.buffer_size = 20971520 →
      (p.medium_chunks.available_buffers ≠ [] →
        ∃ b p', p.get_buffer_for_size 6291456 = some (b, p') ∧
          b.length = 20971520 ∧ 20971520 ≤ b.capacity ∧
          p'.medium_chunks.pool_hits = p.medium_chunks.pool_hits + 1 ∧
          p'.medium_chunks.pool_misses = p.medium_chunks.pool_misses ∧
          p'.medium_chunks.allocated_count = p.medium_chunks.allocated_count) ∧
      (p.medium_chunks.available_buffers = [] →
        p.medium_chunks.allocated_count < p.medium_chunks.max_buffers →
        ∃ b p', p.get_buffer_for_size 6291456 = some (b, p') ∧
          b.length = 20971520 ∧ b.capacity = 20971520 ∧
          p'.medium_chunks.pool_hits = p.medium_chunks.pool_hits ∧
          p'.medium_chunks.pool_misses = p.medium_chunks.pool_misses + 1 ∧
          p'.medium_chunks.allocated_count = p.medium_chunks.allocated_count + 1)) := by
  have hne : ¬ p.enabled = false := by simp [hen]
  constructor
  · intro b p' h
    unfold ChunkDataPool.get_buffer_for_size at h
    rw [if_neg hne] at h
    by_cases h1 : size ≤ 5242880
    · rw [if_pos h1] at h ⊢
      rw [Option.map_eq_some'] at h
      obtain ⟨⟨rb, rp⟩, hr, hf⟩ := h
      have hshape := get_buffer_inv hr
      simp only [Prod.mk.injEq] at hf
      rw [← hf.1]
      refine ⟨hshape.1, ?_⟩
      rw [hshape.1]
      exact hshape.2.1
    · rw [if_neg h1] at h ⊢
      by_cases h2 : size ≤ 20971520
      · rw [if_pos h2] at h ⊢
        rw [Option.map_eq_some'] at h
        obtain ⟨⟨rb, rp⟩, hr, hf⟩ := h
        have hshape := get_buffer_inv hr
        simp only [Prod.mk.injEq] at hf
        rw [← hf.1]
        refine ⟨hshape.1, ?_⟩
        rw [hshape.1]
        exact hshape.2.1
      · rw [if_neg h2] at h ⊢
        rw [Option.map_eq_some'] at h
        obtain ⟨⟨rb, rp⟩, hr, hf⟩ := h
        have hshape := get_buffer_inv hr
        simp only [Prod.mk.injEq] at hf
        rw [← hf.1]
        refine ⟨hshape.1, ?_⟩
        rw [hshape.1]
        exact hshape.2.1
  · intro hbs
    constructor
    · intro hne'
      obtain ⟨c, rest, hav⟩ := List.exists_cons_of_ne_nil hne'
      refine ⟨_, _, route_medium p hne (get_buffer_cons hav), hbs, ?_, rfl, rfl, rfl⟩
      show 20971520 ≤ max c.capacity p.medium_chunks.buffer_size
      rw [hbs]
      exact le_max_right _ _
    · intro hav hlt
      exact ⟨_, _, route_medium p hne (get_buffer_miss hav hlt), hbs, hbs, rfl, rfl, rfl⟩

/-- C5 witness: acquiring 6 MiB from the freshly built enabled pool is a
medium-tier hit returning a 20 MiB buffer. -/
theorem c5_tier_selection_witness :
    ∃ b p', (ChunkDataPool.new true).get_buffer_for_size 6291456 = some (b, p') ∧
      b.length = 20971520 ∧ 20971520 ≤ b.capacity ∧
      p'.medium_chunks.pool_hits = (ChunkDataPool.new true).medium_chunks.pool_hits + 1 ∧
      p'.medium_chunks.pool_misses = (ChunkDataPool.new true).medium_chunks.pool_misses ∧
      p'.medium_chunks.allocated_count = (ChunkDataPool.new true).medium_chunks.allocated_count :=
  ((c5_tier_selection (ChunkDataPool.new true) 6291456 rfl).2 rfl).1 (by decide)

/-- C5 counterexample: after eight 6 MiB acquisitions with no releases the
medium tier is exhausted (free list empty, `allocated_count` at
`max_buffers`), and a further `acquire(6 * 1024 * 1024)` on the enabled
pool completes no step at all — it neither returns a buffer nor counts a
miss nor increments `allocated_count`, contradicting the claim's
"otherwise a miss with allocated_count incremented". -/
theorem c5_counterexample :
    (drainMedium 8 (ChunkDataPool.new true)).enabled = true ∧
    (drainMedium 8 (ChunkDataPool.new true)).medium_chunks.available_buffers = [] ∧
    (drainMedium 8 (ChunkDataPool.new true)).medium_chunks.allocated_count = 8 ∧
    (drainMedium 8 (ChunkDataPool.new true)).get_buffer_for_size 6291456 = none := by
  refine ⟨rfl, rfl, rfl, ?_⟩
  decide

/-- The loop only appends to the tracked list: every initially tracked
range survives it. -/
theorem prefetchLoop_downloads_mono (ce ch : Nat) :
    ∀ (k i : Nat) (d acc : List (Nat × Nat)) (q : Nat × Nat), q ∈ d →
      q ∈ (prefetchLoop ce ch k i d acc).1 := by
  intro k
  induction k with
  | zero =>
    intro i d acc q hq
    exact hq
  | succ k ih =>
    intro i d acc q hq
    by_cases hany : (d.any (fun q => ovl q (add64 ce (mul64 (i - 1) ch)))) = true
    · rw [prefetchLoop, if_pos hany]
      exact ih _ _ _ q hq
    · rw [prefetchLoop, if_neg hany]
      exact ih _ _ _ q (List.mem_append_left _ hq)

/-- Every range the loop emits was overlap-checked against a tracked list
containing all of `d0`: its start lies in no `[s, e]` of `d0`. -/
theorem prefetchLoop_safe (ce ch : Nat) (d0 : List (Nat × Nat)) :
    ∀ (k i : Nat) (d acc : List (Nat × Nat)),
      (∀ q ∈ d0, q ∈ d) → (∀ p ∈ acc, ∀ q ∈ d0, ovl q p.1 = false) →
      ∀ p ∈ (prefetchLoop ce ch k i d acc).2, ∀ q ∈ d0, ovl q p.1 = false := by
  intro k
  induction k with
  | zero =>
    intro i d acc _ hacc p hp
    exact hacc p hp
  | succ k ih =>
    intro i d acc hd hacc
    by_cases hany : (d.any (fun q => ovl q (add64 ce (mul64 (i - 1) ch)))) = true
    · rw [prefetchLoop, if_pos hany]
      exact ih _ _ _ hd hacc
    · rw [prefetchLoop, if_neg hany]
      refine ih _ _ _ (fun q hq => List.mem_append_left _ (hd q hq)) ?_
      intro p hp q hq
      rcases List.mem_append.mp hp with hp | hp
      · exact hacc p hp q hq
      · have hpp := List.mem_singleton.mp hp
        subst hpp
        have hfalse : ∀ x ∈ d, ovl x (add64 ce (mul64 (i - 1) ch)) = false := by
          intro x hx
          by_contra hxx
          rw [Bool.not_eq_false] at hxx
          exact hany (List.any_eq_true.mpr ⟨x, hx, hxx⟩)
        exact hfalse q (hd q hq)

/-- The emitted ranges are pairwise collision-free in the `RelC` sense:
each range's start avoids the span of every earlier non-wrapped one. -/
theorem prefetchLoop_pairwise (ce ch : Nat) :
    ∀ (k i : Nat) (d acc : List (Nat × Nat)),
      (∀ p ∈ acc, p ∈ d) → acc.Pairwise RelC →
      (prefetchLoop ce ch k i d acc).2.Pairwise RelC := by
  intro k
  induction k with
  | zero =>
    intro i d acc _ hpw
    exact hpw
  | succ k ih =>
    intro i d acc hsub hpw
    by_cases hany : (d.any (fun q => ovl q (add64 ce (mul64 (i - 1) ch)))) = true
    · rw [prefetchLoop, if_pos hany]
      exact ih _ _ _ hsub hpw
    · rw [prefetchLoop, if_neg hany]
      refine ih _ _ _ ?_ ?_
      · intro p hp
        rcases List.mem_append.mp hp with hp | hp
        · exact List.mem_append_left _ (hsub p hp)
        · exact List.mem_append_right _ hp
      · rw [List.pairwise_append]
        refine ⟨hpw, by simp, ?_⟩
        intro a ha b hb
        have hbb := List.mem_singleton.mp hb
        subst hbb
        intro hle heq
        have hfalse : ovl a (add64 ce (mul64 (i - 1) ch)) = false := by
          by_contra hxx
          rw [Bool.not_eq_false] at hxx
          exact hany (List.any_eq_true.mpr ⟨a, hsub a ha, hxx⟩)
        have htrue : ovl a (add64 ce (mul64 (i - 1) ch)) = true := by
          unfold ovl
          rw [show add64 ce (mul64 (i - 1) ch) = a.1 from heq]
          simp [hle]
        rw [htrue] at hfalse
        exact absurd hfalse (by simp)

/-- C7 (amended): with prefetching enabled and `chunk_size > 0`, no range
`decide` returns has a start inside — in particular equal to the start
of — any non-wrapped range (one with `start <= end`) tracked for the
resource when the candidate is tested; this covers all pre-call tracked
ranges and, via pairwise distinctness, the ranges appended earlier in the
same call.  (The code's overlap test cannot see wrapped tracked ranges
with `end < start`, which arise from `u64` overflow in prefetch-end
arithmetic.) -/
theorem c7_no_collision (m : ParallelDownloadManager) (url : String) (start chunk : Nat)
    (hen : m.enabled = true) (_hchunk : 0 < chunk) :
    (∀ p ∈ (should_prefetch m url start chunk).1,
      ∀ q ∈ (lookupA m.active_downloads url).getD [], q.1 ≤ q.2 → p.1 ≠ q.1) ∧
    ((should_prefetch m url start chunk).1).Pairwise RelC := by
  have hres : (should_prefetch m url start chunk).1 =
      (prefetchLoop (add64 start chunk) chunk
        (min (m.prefetch_size / chunk) (sub64 m.max_concurrent 1)) 1
        ((lookupA m.active_downloads url).getD []) []).2 := by
    simp [should_prefetch, hen]
  rw [hres]
  constructor
  · intro p hp q hq hle heq
    have hsafe := prefetchLoop_safe (add64 start chunk) chunk
      ((lookupA m.active_downloads url).getD [])
      (min (m.prefetch_size / chunk) (sub64 m.max_concurrent 1)) 1
      ((lookupA m.active_downloads url).getD []) []
      (fun q hq => hq) (by intro p hp; exact absurd hp (List.not_mem_nil p)) p hp q hq
    unfold ovl at hsafe
    rw [heq] at hsafe
    simp [hle] at hsafe
  · exact prefetchLoop_pairwise _ _ _ _ _ []
      (by intro p hp; exact absurd hp (List.not_mem_nil p)) List.Pairwise.nil

/-- C7 witness: a concrete enabled call at `start = 0`, `chunk = 10`. -/
theorem c7_no_collision_witness :
    (∀ p ∈ (should_prefetch pdmDefault "u" 0 10).1,
      ∀ q ∈ (lookupA pdmDefault.active_downloads "u").getD [], q.1 ≤ q.2 → p.1 ≠ q.1) ∧
    ((should_prefetch pdmDefault "u" 0 10).1).Pairwise RelC :=
  c7_no_collision pdmDefault "u" 0 10 rfl (by decide)

/-- C7 counterexample: starting from the empty table with the default
configuration, one call at `start = 2 ^ 64 - 11`, `chunk_size = 10` tracks
the wrapped range `(2 ^ 64 - 1, 8)`; a second identical call emits a
prefetch range whose start `2 ^ 64 - 1` equals the start of that tracked
range at the moment the candidate is tested. -/
theorem c7_counterexample :
    pdmWrapped.enabled = true ∧ (0 : Nat) < 10 ∧
    lookupA pdmWrapped.active_downloads "u" = some [(U64 - 1, 8), (U64 - 11, U64 - 2)] ∧
    (should_prefetch pdmWrapped "u" (U64 - 11) 10).1 = [(U64 - 1, 8)] := by decide

/-- Updating a key then looking it up yields the stored list. -/
theorem lookupA_insertA (m : List (String × List (Nat × Nat))) (k : String)
    (v : List (Nat × Nat)) : lookupA (insertA m k v) k = some v := by
  induction m with
  | nil => simp [insertA, lookupA]
  | cons e rest ih =>
    obtain ⟨k', v'⟩ := e
    by_cases h : k' = k
    · simp [insertA, lookupA, h]
    · simp [insertA, lookupA, h, ih]

/-- Every range the loop emits is also pushed onto the tracked list it
returns: the emitted sequence names exactly the ranges the call appended
before the served range. -/
theorem prefetchLoop_acc_sub (ce ch : Nat) :
    ∀ (k i : Nat) (d acc : List (Nat × Nat)), (∀ p ∈ acc, p ∈ d) →
      ∀ p ∈ (prefetchLoop ce ch k i d acc).2, p ∈ (prefetchLoop ce ch k i d acc).1 := by
  intro k
  induction k with
  | zero =>
    intro i d acc hsub p hp
    exact hsub p hp
  | succ k ih =>
    intro i d acc hsub
    by_cases hany : (d.any (fun q => ovl q (add64 ce (mul64 (i - 1) ch)))) = true
    · rw [prefetchLoop, if_pos hany]
      exact ih _ _ _ hsub
    · rw [prefetchLoop, if_neg hany]
      refine ih _ _ _ ?_
      intro p hp
      rcases List.mem_append.mp hp with hp | hp
      · exact List.mem_append_left _ (hsub p hp)
      · exact List.mem_append_right _ hp

/-- C8 (amended): whenever `2 * prefetch_budget_bytes` (computed in `u64`)
is non-zero, pruning retains every range tracked at pruning time whose
start is at or beyond the call's `start` — the pre-call tracked ranges,
the prefetch ranges appended earlier in the same call (the returned
sequence), and the currently served range; when the doubled budget is zero
(budget `0`, or `2 ^ 63` wrapping to `0`) the retain bound `start - s < 0`
is unsatisfiable and such ranges are evicted. -/
theorem c8_retain_ahead (m : ParallelDownloadManager) (url : String) (start chunk : Nat)
    (hen : m.enabled = true) (hbudget : 0 < mul64 m.prefetch_size 2) :
    (∀ q ∈ (lookupA m.active_downloads url).getD [], start ≤ q.1 →
      q ∈ (lookupA (should_prefetch m url start chunk).2.active_downloads url).getD []) ∧
    (∀ q ∈ (should_prefetch m url start chunk).1, start ≤ q.1 →
      q ∈ (lookupA (should_prefetch m url start chunk).2.active_downloads url).getD []) ∧
    (start, sub64 (add64 start chunk) 1) ∈
      (lookupA (should_prefetch m url start chunk).2.active_downloads url).getD [] := by
  have hres : (should_prefetch m url start chunk).1 =
      (prefetchLoop (add64 start chunk) chunk
        (min (m.prefetch_size / chunk) (sub64 m.max_concurrent 1)) 1
        ((lookupA m.active_downloads url).getD []) []).2 := by
    simp [should_prefetch, hen]
  have hact : (should_prefetch m url start chunk).2.active_downloads =
      insertA m.active_downloads url
        (((prefetchLoop (add64 start chunk) chunk
            (min (m.prefetch_size / chunk) (sub64 m.max_concurrent 1)) 1
            ((lookupA m.active_downloads url).getD []) []).1 ++
          [(start, sub64 (add64 start chunk) 1)]).filter
          (fun q => decide (start - q.1 < mul64 m.prefetch_size 2))) := by
    simp [should_prefetch, hen]
  rw [hres, hact, lookupA_insertA]
  simp only [Option.getD_some]
  refine ⟨?_, ?_, ?_⟩
  · intro q hq hge
    apply List.mem_filter.mpr
    constructor
    · exact List.mem_append_left _ (prefetchLoop_downloads_mono _ _ _ _ _ _ q hq)
    · rw [Nat.sub_eq_zero_of_le hge]
      exact decide_eq_true hbudget
  · intro q hq hge
    apply List.mem_filter.mpr
    constructor
    · refine List.mem_append_left _ (prefetchLoop_acc_sub _ _ _ _ _ []
        (by intro p hp; exact absurd hp (List.not_mem_nil p)) q hq)
    · rw [Nat.sub_eq_zero_of_le hge]
      exact decide_eq_true hbudget
  · apply List.mem_filter.mpr
    constructor
    · exact List.mem_append_right _ (List.mem_singleton_self _)
    · rw [Nat.sub_self]
      exact decide_eq_true hbudget

/-- C8 witness: with the default 20 MiB budget, pre-call tracked ranges
ahead of `start`, the same-call prefetch ranges, and the current range all
survive pruning. -/
theorem c8_retain_ahead_witness :
    (∀ q ∈ (lookupA pdmDefault.active_downloads "u").getD [], 5 ≤ q.1 →
      q ∈ (lookupA (should_prefetch pdmDefault "u" 5 10).2.active_downloads "u").getD []) ∧
    (∀ q ∈ (should_prefetch pdmDefault "u" 5 10).1, 5 ≤ q.1 →
      q ∈ (lookupA (should_prefetch pdmDefault "u" 5 10).2.active_downloads "u").getD []) ∧
    (5, sub64 (add64 5 10) 1) ∈
      (lookupA (should_prefetch pdmDefault "u" 5 10).2.active_downloads "u").getD [] :=
  c8_retain_ahead pdmDefault "u" 5 10 rfl (by decide)

/-- C8 counterexample: with `prefetch_budget_bytes = 0` and prefetching
enabled, a call at `start = 0`, `chunk = 1` appends the served range
`(0, 0)` — whose start `0` is at (hence not behind) the call's `start` —
and the pruning step then evicts it: the tracked list ends empty, so a
range ahead of `start` was evicted by the pruning rule. -/
theorem c8_counterexample :
    pdmZeroBudget.enabled = true ∧ pdmZeroBudget.prefetch_size = 0 ∧
    should_prefetch pdmZeroBudget "u" 0 1 =
      ([], { pdmZeroBudget with active_downloads := [("u", [])] }) := by decide

/-- C9: with prefetching disabled by configuration, `should_prefetch`
returns the empty sequence and leaves the manager — in particular the
whole tracked-range table — completely unchanged: no entry is created,
appended to, or pruned. -/
theorem c9_disabled_noop (m : ParallelDownloadManager) (url : String) (start chunk : Nat)
    (hen : m.enabled = false) :
    should_prefetch m url start chunk = ([], m) := by
  simp [should_prefetch, hen]

/-- C9 witness: a concrete disabled manager is left untouched. -/
theorem c9_disabled_noop_witness :
    should_prefetch pdmDisabled "u" 0 10 = ([], pdmDisabled) :=
  c9_disabled_noop pdmDisabled "u" 0 10 rfl
